import Mathlib

/-!
# Verification of the boot manager and housekeeper scheduler

A shallow embedding of the two core subsystems of the mail server:

* `Housekeeper`: the action queue, its ordering, the scheduler's event loop
  modelled as a transition system, and the dispatch traces of the timer branch
  (from `crates/jmap/src/services/housekeeper.rs`).
* `Boot`: the staged boot pipeline, the local-file parse stage, the seeding
  stages (hostname, oauth key, spam-filter block), and the quickstart
  scaffolder (from `crates/common/src/manager/boot.rs`).

Instants and durations are modelled as natural numbers (`Instant` as ticks,
`Duration` as a tick count); `saturating_duration_since` is truncated natural
subtraction.
-/

namespace Housekeeper

/-- `ActionClass` from housekeeper.rs: identity of a scheduled job. -/
inductive ActionClass where
  | Session : ActionClass
  | Account : ActionClass
  | Store : Nat → ActionClass
  | Acme : String → ActionClass
  | ReloadLicense : ActionClass
deriving DecidableEq

/-- `Action` from housekeeper.rs: a due instant paired with a class.
The Rust type derives `PartialEq`/`Eq`, which compare all fields, so the
derived decidable equality here matches field-wise. -/
structure Action where
  due : Nat
  event : ActionClass
deriving DecidableEq

/-- The `Ord` implementation for `Action`: `self.due.cmp(&other.due).reverse()`.
`Ordering.swap` is Rust's `Ordering::reverse`. -/
def actionCmp (a b : Action) : Ordering :=
  (compare a.due b.due).swap

/-- `Queue::schedule`: push an action onto the heap (modelled as a list with
multiset semantics). -/
def push (q : List Action) (due : Nat) (c : ActionClass) : List Action :=
  ⟨due, c⟩ :: q

/-- `Queue::remove_action`: `self.heap.retain(|e| &e.event != event)`. -/
def removeAction (q : List Action) (c : ActionClass) : List Action :=
  q.filter (fun a => a.event ≠ c)

/-- The due instant of the heap's peek element: a `BinaryHeap<Action>` with the
reversed ordering peeks an element of minimal `due`. -/
def minDue? : List Action → Option Nat
  | [] => none
  | a :: rest =>
    some (match minDue? rest with
      | none => a.due
      | some d => min a.due d)

/-- `Queue::wake_up_time`: `heap.peek().map(|e| e.due.saturating_duration_since(now)).unwrap_or(LONG_SLUMBER)`.
The constant `LONG_SLUMBER` lives outside the sources given here, so it is a
parameter `slumber`. -/
def wakeUpTime (slumber : Nat) (q : List Action) (now : Nat) : Nat :=
  match minDue? q with
  | none => slumber
  | some d => d - now

theorem minDue?_eq_none_iff (q : List Action) : minDue? q = none ↔ q = [] := by
  cases q with
  | nil => simp [minDue?]
  | cons a rest => simp [minDue?]

theorem minDue?_mem (q : List Action) (d : Nat) (h : minDue? q = some d) :
    ∃ a ∈ q, a.due = d := by
  induction q generalizing d with
  | nil => simp [minDue?] at h
  | cons a rest ih =>
    simp only [minDue?] at h
    cases hr : minDue? rest with
    | none =>
      rw [hr] at h
      simp at h
      exact ⟨a, by simp, h⟩
    | some d' =>
      rw [hr] at h
      simp at h
      by_cases hle : a.due ≤ d'
      · refine ⟨a, by simp, ?_⟩
        simp [Nat.min_def, hle] at h
        exact h
      · obtain ⟨b, hb, hbd⟩ := ih d' hr
        refine ⟨b, by simp [hb], ?_⟩
        simp [Nat.min_def, hle] at h
        omega

theorem minDue?_le (q : List Action) (d : Nat) (h : minDue? q = some d) :
    ∀ a ∈ q, d ≤ a.due := by
  induction q generalizing d with
  | nil => simp
  | cons a rest ih =>
    simp only [minDue?] at h
    intro b hb
    cases hr : minDue? rest with
    | none =>
      rw [hr] at h
      simp at h
      rcases List.mem_cons.mp hb with rfl | hb'
      · omega
      · rw [minDue?_eq_none_iff] at hr
        subst hr
        simp at hb'
    | some d' =>
      rw [hr] at h
      simp at h
      rcases List.mem_cons.mp hb with rfl | hb'
      · have := Nat.min_le_left b.due d'
        omega
      · have := ih d' hr b hb'
        have := Nat.min_le_right a.due d'
        omega

/-- C5 counterexample: two Actions with equal classes but different due
instants are NOT equal under the derived (field-wise) equality, refuting
"two Action values are equal exactly when their ActionClass values are equal,
irrespective of their due instants" at the concrete inputs
`(due 0, Session)` and `(due 1, Session)`. -/
theorem action_eq_by_class_alone_cex :
    (Action.mk 0 .Session == Action.mk 1 .Session) = false ∧
    (Action.mk 0 .Session).event = (Action.mk 1 .Session).event := by
  constructor
  · decide
  · rfl

/-- The three outcomes of the reversed Action ordering, each characterized by
the comparison of the due instants alone. -/
theorem actionCmp_due (a b : Action) :
    (actionCmp a b = .gt ↔ a.due < b.due) ∧
    (actionCmp a b = .lt ↔ b.due < a.due) ∧
    (actionCmp a b = .eq ↔ a.due = b.due) := by
  unfold actionCmp
  rcases Nat.lt_trichotomy a.due b.due with h | h | h
  · rw [Nat.compare_eq_lt.mpr h]
    refine ⟨?_, ?_, ?_⟩ <;> simp [Ordering.swap] <;> omega
  · rw [Nat.compare_eq_eq.mpr h]
    refine ⟨?_, ?_, ?_⟩ <;> simp [Ordering.swap] <;> omega
  · rw [Nat.compare_eq_gt.mpr h]
    refine ⟨?_, ?_, ?_⟩ <;> simp [Ordering.swap] <;> omega

/-- C5 (amended): Action equality is the derived field-wise equality (both
`due` and `event` must match, as `#[derive(PartialEq, Eq)]` compares all
fields); the ordering is by `due` alone, reversed, so a `BinaryHeap`, which
pops maximal elements, behaves as a min-heap keyed on `due`. -/
theorem action_eq_fieldwise_and_ord_by_due (a b : Action) :
    ((a == b) = true ↔ a.due = b.due ∧ a.event = b.event) ∧
    (actionCmp a b = .gt ↔ a.due < b.due) ∧
    (actionCmp a b = .lt ↔ b.due < a.due) ∧
    (actionCmp a b = .eq ↔ a.due = b.due) := by
  refine ⟨?_, (actionCmp_due a b).1, (actionCmp_due a b).2.1,
    (actionCmp_due a b).2.2⟩
  rw [beq_iff_eq]
  cases a with
  | mk d e =>
    cases b with
    | mk d' e' => simp [Action.mk.injEq]

/-- C6 counterexample: a non-empty heap whose earliest due instant is exactly
`LONG_SLUMBER` ticks away makes `wake_up_time()` return `LONG_SLUMBER`, so
"`wake_up_time()` returns `LONG_SLUMBER` if and only if the heap is empty"
fails at the concrete input `heap = [(due 86400, Session)]`, `now = 0`,
`LONG_SLUMBER = 86400`. -/
theorem wakeUpTime_slumber_on_nonempty_cex :
    wakeUpTime 86400 [⟨86400, .Session⟩] 0 = 86400 ∧
    ([(⟨86400, .Session⟩ : Action)] ≠ ([] : List Action)) := by
  constructor
  · rfl
  · simp

/-- C6 (amended): for positive `LONG_SLUMBER`, `wake_up_time()` returns
`LONG_SLUMBER` iff the heap is empty or the earliest due instant is exactly
`now + LONG_SLUMBER`; when the heap is non-empty it returns the saturating
duration from `now` to the earliest due instant (zero when already passed). -/
theorem wakeUpTime_spec (slumber : Nat) (q : List Action) (now : Nat)
    (hs : 0 < slumber) :
    (wakeUpTime slumber q now = slumber ↔
      q = [] ∨ minDue? q = some (now + slumber)) ∧
    (∀ d, minDue? q = some d →
      wakeUpTime slumber q now = d - now ∧
      (∃ a ∈ q, a.due = d) ∧ (∀ a ∈ q, d ≤ a.due)) := by
  constructor
  · cases hm : minDue? q with
    | none =>
      rw [minDue?_eq_none_iff] at hm
      subst hm
      simp [wakeUpTime, minDue?]
    | some d =>
      have hq : q ≠ [] := by
        intro h
        subst h
        simp [minDue?] at hm
      simp only [wakeUpTime, hm]
      constructor
      · intro h
        right
        have : d = now + slumber := by omega
        rw [this]
      · rintro (h | h)
        · exact absurd h hq
        · simp at h
          omega
  · intro d hd
    refine ⟨by simp [wakeUpTime, hd], minDue?_mem q d hd, minDue?_le q d hd⟩

/-- Witness for `wakeUpTime_spec`: at `slumber = 5`, heap `[(due 7, Session)]`,
`now = 3`, the wake-up time is `7 - 3`. -/
theorem wakeUpTime_spec_witness :
    wakeUpTime 5 [⟨7, .Session⟩] 3 = 7 - 3 :=
  ((wakeUpTime_spec 5 [⟨7, .Session⟩] 3 (by decide)).2 7 (by decide)).1

/-! ## The scheduler as a transition system

`spawn_housekeeper` owns the queue and two flags (`index_busy`,
`index_pending`).  To reason about single-flight indexing the number of
spawned-but-unfinished `fts_index_queued` tasks (`running`) and the number of
`IndexDone` messages sent by finished tasks but not yet processed
(`doneInFlight`) are tracked explicitly. -/

/-- The observable state of the housekeeper loop. -/
structure HKState where
  heap : List Action
  indexBusy : Bool
  indexPending : Bool
  running : Nat
  doneInFlight : Nat
deriving DecidableEq

/-- The classes currently present in the heap. -/
def classes (q : List Action) : List ActionClass := q.map Action.event

/-- Parameters of the initial schedule: the current instant, the two purge
frequencies, one cron delay per configured purge schedule, the successfully
initialized ACME providers with their renewal delays, and the optional
enterprise license expiry. -/
structure InitParams where
  now : Nat
  sessionDelay : Nat
  accountDelay : Nat
  storeDelays : List Nat
  acmeRenewals : List (String × Nat)
  licenseExpiry : Option Nat

/-- The initial queue built before the loop starts: `Session`, `Account`, one
`Store(i)` per purge schedule (by `enumerate` index), one `Acme(id)` per
successfully initialized provider, and `ReloadLicense` when a license is
loaded. -/
def initialHeap (p : InitParams) : List Action :=
  [⟨p.now + p.sessionDelay, .Session⟩, ⟨p.now + p.accountDelay, .Account⟩]
    ++ p.storeDelays.enum.map (fun x => ⟨p.now + x.2, .Store x.1⟩)
    ++ p.acmeRenewals.map (fun x => ⟨p.now + x.2, .Acme x.1⟩)
    ++ (match p.licenseExpiry with
        | some d => [⟨p.now + d, .ReloadLicense⟩]
        | none => [])

/-- The state at the top of the first loop iteration: `index_busy = true` with
one `fts_index_queued` task already spawned, `index_pending = false`. -/
def initState (p : InitParams) : HKState :=
  ⟨initialHeap p, true, false, 1, 0⟩

/-- One transition of the housekeeper loop: an inbox event, the completion of
a spawned indexing task, or the dispatch of one due action by the timer
branch.  The popped action is an element of minimal `due` whose instant has
passed; rescheduling pushes a fresh action of the same class (delays are
unconstrained, as `time_to_next()` is external). -/
inductive Step : HKState → HKState → Prop where
  | acmeReschedule (s : HKState) (id : String) (t : Nat) :
      Step s { s with
        heap := push (removeAction s.heap (.Acme id)) t (.Acme id) }
  | indexStartIdle (s : HKState) :
      s.indexBusy = false →
      Step s { s with indexBusy := true, running := s.running + 1 }
  | indexStartBusy (s : HKState) :
      s.indexBusy = true →
      Step s { s with indexPending := true }
  | taskComplete (s : HKState) :
      0 < s.running →
      Step s { s with
        running := s.running - 1, doneInFlight := s.doneInFlight + 1 }
  | indexDonePending (s : HKState) :
      0 < s.doneInFlight → s.indexPending = true →
      Step s { s with
        doneInFlight := s.doneInFlight - 1, indexPending := false,
        running := s.running + 1 }
  | indexDoneIdle (s : HKState) :
      0 < s.doneInFlight → s.indexPending = false →
      Step s { s with
        doneInFlight := s.doneInFlight - 1, indexBusy := false }
  | fireSession (s : HKState) (a : Action) (now t : Nat) :
      a ∈ s.heap → a.event = .Session → a.due ≤ now →
      (∀ b ∈ s.heap, a.due ≤ b.due) →
      Step s { s with heap := push (s.heap.erase a) t .Session }
  | fireAccount (s : HKState) (a : Action) (now t : Nat) :
      a ∈ s.heap → a.event = .Account → a.due ≤ now →
      (∀ b ∈ s.heap, a.due ≤ b.due) →
      Step s { s with heap := push (s.heap.erase a) t .Account }
  | fireStore (s : HKState) (a : Action) (now t : Nat) (idx : Nat) :
      a ∈ s.heap → a.event = .Store idx → a.due ≤ now →
      (∀ b ∈ s.heap, a.due ≤ b.due) →
      Step s { s with heap := push (s.heap.erase a) t (.Store idx) }
  | fireStoreGone (s : HKState) (a : Action) (now : Nat) (idx : Nat) :
      a ∈ s.heap → a.event = .Store idx → a.due ≤ now →
      (∀ b ∈ s.heap, a.due ≤ b.due) →
      Step s { s with heap := s.heap.erase a }
  | fireAcme (s : HKState) (a : Action) (now : Nat) (id : String) :
      a ∈ s.heap → a.event = .Acme id → a.due ≤ now →
      (∀ b ∈ s.heap, a.due ≤ b.due) →
      Step s { s with heap := s.heap.erase a }
  | fireReloadLicense (s : HKState) (a : Action) (now t : Nat) :
      a ∈ s.heap → a.event = .ReloadLicense → a.due ≤ now →
      (∀ b ∈ s.heap, a.due ≤ b.due) →
      Step s { s with heap := push (s.heap.erase a) t .ReloadLicense }
  | fireReloadLicenseNoop (s : HKState) (a : Action) (now : Nat) :
      a ∈ s.heap → a.event = .ReloadLicense → a.due ≤ now →
      (∀ b ∈ s.heap, a.due ≤ b.due) →
      Step s { s with heap := s.heap.erase a }

/-- Reachability: the initial schedule followed by any sequence of steps. -/
inductive Reach (p : InitParams) : HKState → Prop where
  | init : Reach p (initState p)
  | step {s s' : HKState} : Reach p s → Step s s' → Reach p s'

theorem classes_removeAction_nodup (q : List Action) (c : ActionClass)
    (h : (classes q).Nodup) : (classes (removeAction q c)).Nodup :=
  ((List.filter_sublist q).map Action.event).nodup h

theorem not_mem_classes_removeAction (q : List Action) (c : ActionClass) :
    c ∉ classes (removeAction q c) := by
  intro hc
  simp only [classes, removeAction, List.mem_map] at hc
  obtain ⟨a, ha, hev⟩ := hc
  rw [List.mem_filter] at ha
  simp [hev] at ha

theorem nodup_push_removeAction (q : List Action) (c : ActionClass) (t : Nat)
    (h : (classes q).Nodup) :
    (classes (push (removeAction q c) t c)).Nodup := by
  simp only [classes, push, List.map_cons, List.nodup_cons]
  exact ⟨not_mem_classes_removeAction q c, classes_removeAction_nodup q c h⟩

theorem classes_erase_perm (q : List Action) (a : Action) (ha : a ∈ q) :
    List.Perm (classes q) (a.event :: classes (q.erase a)) := by
  have hperm : List.Perm q (a :: q.erase a) := List.perm_cons_erase ha
  simpa [classes] using hperm.map Action.event

theorem nodup_push_erase (q : List Action) (a : Action) (t : Nat)
    (ha : a ∈ q) (h : (classes q).Nodup) :
    (classes (push (q.erase a) t a.event)).Nodup := by
  have h2 : (a.event :: classes (q.erase a)).Nodup :=
    ((classes_erase_perm q a ha).nodup_iff).mp h
  simpa [classes, push] using h2

theorem nodup_erase (q : List Action) (a : Action)
    (ha : a ∈ q) (h : (classes q).Nodup) :
    (classes (q.erase a)).Nodup :=
  (((classes_erase_perm q a ha).nodup_iff).mp h).of_cons

theorem classes_initialHeap (p : InitParams) :
    classes (initialHeap p) =
      [ActionClass.Session, ActionClass.Account]
        ++ p.storeDelays.enum.map (fun x => ActionClass.Store x.1)
        ++ p.acmeRenewals.map (fun x => ActionClass.Acme x.1)
        ++ (match p.licenseExpiry with
            | some _ => [ActionClass.ReloadLicense]
            | none => []) := by
  cases hl : p.licenseExpiry <;>
    simp only [initialHeap, classes, hl, List.map_append, List.map_cons,
      List.map_nil, List.map_map] <;>
    rfl

theorem initialHeap_nodup (p : InitParams)
    (hids : (p.acmeRenewals.map Prod.fst).Nodup) :
    (classes (initialHeap p)).Nodup := by
  rw [classes_initialHeap]
  have hstore : (p.storeDelays.enum.map
      (fun x => ActionClass.Store x.1)).Nodup := by
    have : (p.storeDelays.enum.map (fun x => ActionClass.Store x.1)) =
        (p.storeDelays.enum.map Prod.fst).map ActionClass.Store := by
      rw [List.map_map]
      rfl
    rw [this]
    exact (List.nodup_enum_map_fst p.storeDelays).map
      (fun i j h => by injection h)
  have hacme : (p.acmeRenewals.map (fun x => ActionClass.Acme x.1)).Nodup := by
    have : (p.acmeRenewals.map (fun x => ActionClass.Acme x.1)) =
        (p.acmeRenewals.map Prod.fst).map ActionClass.Acme := by
      rw [List.map_map]
      rfl
    rw [this]
    exact hids.map (fun i j h => by injection h)
  have hlic : (match p.licenseExpiry with
      | some _ => [ActionClass.ReloadLicense]
      | none => ([] : List ActionClass)).Nodup := by
    cases p.licenseExpiry <;> simp
  rw [List.append_assoc, List.append_assoc]
  refine List.Nodup.append (by simp) ?_ ?_
  · refine List.Nodup.append hstore ?_ ?_
    · refine List.Nodup.append hacme hlic ?_
      intro c hc hc2
      obtain ⟨x, _, rfl⟩ := List.mem_map.mp hc
      cases hl : p.licenseExpiry <;> simp [hl] at hc2
    · intro c hc hc2
      obtain ⟨x, _, rfl⟩ := List.mem_map.mp hc
      rcases List.mem_append.mp hc2 with hc2 | hc2
      · obtain ⟨y, _, hy⟩ := List.mem_map.mp hc2
        simp at hy
      · cases hl : p.licenseExpiry <;> simp [hl] at hc2
  · intro c hc hc2
    have hc' : c = ActionClass.Session ∨ c = ActionClass.Account := by
      simpa using hc
    rcases List.mem_append.mp hc2 with hc2 | hc2
    · obtain ⟨x, _, hx⟩ := List.mem_map.mp hc2
      rcases hc' with rfl | rfl <;> simp at hx
    · rcases List.mem_append.mp hc2 with hc2 | hc2
      · obtain ⟨x, _, hx⟩ := List.mem_map.mp hc2
        rcases hc' with rfl | rfl <;> simp at hx
      · cases hl : p.licenseExpiry with
        | none => simp [hl] at hc2
        | some d =>
          simp [hl] at hc2
          rcases hc' with rfl | rfl <;> simp at hc2



/-- C3: in every reachable state of the housekeeper scheduler (after the
initial schedule and any sequence of events and timer firings), the queue
contains at most one Action per ActionClass value, provided the ACME provider
ids of the initial schedule are distinct (they are keys of a map). -/
theorem queue_at_most_one_per_class (p : InitParams) (s : HKState)
    (hr : Reach p s) (hids : (p.acmeRenewals.map Prod.fst).Nodup) :
    (classes s.heap).Nodup := by
  induction hr with
  | init => exact initialHeap_nodup p hids
  | step hreach hstep ih =>
    cases hstep with
    | acmeReschedule id t => exact nodup_push_removeAction _ _ _ ih
    | indexStartIdle h => exact ih
    | indexStartBusy h => exact ih
    | taskComplete h => exact ih
    | indexDonePending h1 h2 => exact ih
    | indexDoneIdle h1 h2 => exact ih
    | fireSession a now t ha hev hd hmin =>
      have h2 := nodup_push_erase _ a t ha ih
      rw [hev] at h2
      exact h2
    | fireAccount a now t ha hev hd hmin =>
      have h2 := nodup_push_erase _ a t ha ih
      rw [hev] at h2
      exact h2
    | fireStore a now t idx ha hev hd hmin =>
      have h2 := nodup_push_erase _ a t ha ih
      rw [hev] at h2
      exact h2
    | fireStoreGone a now idx ha hev hd hmin =>
      exact nodup_erase _ a ha ih
    | fireAcme a now id ha hev hd hmin =>
      exact nodup_erase _ a ha ih
    | fireReloadLicense a now t ha hev hd hmin =>
      have h2 := nodup_push_erase _ a t ha ih
      rw [hev] at h2
      exact h2
    | fireReloadLicenseNoop a now ha hev hd hmin =>
      exact nodup_erase _ a ha ih

/-- Witness for `queue_at_most_one_per_class`: the initial state for a
concrete parameter choice (one purge schedule, one ACME provider) satisfies
the at-most-one-per-class invariant. -/
theorem queue_at_most_one_per_class_witness :
    (classes (initState ⟨0, 10, 20, [5], [("a", 7)], some 3⟩).heap).Nodup :=
  queue_at_most_one_per_class ⟨0, 10, 20, [5], [("a", 7)], some 3⟩ _
    Reach.init (by decide)

/-- C4: single-flight indexing.  In every reachable scheduler state at most
one `fts_index_queued` task is spawned and unfinished (counting also a
finished task whose `IndexDone` message is still in flight there is at most
one in the pipeline); `index_busy` is set exactly while such a task is in the
pipeline, and `index_pending` is only set while busy, so all `IndexStart`
events arriving during one run collapse into the single pending slot consumed
by `IndexDone`. -/
theorem indexing_single_flight (p : InitParams) (s : HKState)
    (hr : Reach p s) :
    s.running + s.doneInFlight ≤ 1 ∧
    (s.indexBusy = true ↔ s.running + s.doneInFlight = 1) ∧
    (s.indexPending = true → s.indexBusy = true) := by
  induction hr with
  | init => simp [initState]
  | @step spre snew hreach hstep ih =>
    obtain ⟨ih1, ih2, ih3⟩ := ih
    cases hstep with
    | acmeReschedule id t => exact ⟨ih1, ih2, ih3⟩
    | indexStartIdle h =>
      have hsum0 : spre.running + spre.doneInFlight = 0 := by
        by_contra hne
        have hone : spre.running + spre.doneInFlight = 1 := by omega
        have hb := ih2.mpr hone
        rw [h] at hb
        exact Bool.noConfusion hb
      refine ⟨?_, ?_, ?_⟩
      · show spre.running + 1 + spre.doneInFlight ≤ 1
        omega
      · show true = true ↔ spre.running + 1 + spre.doneInFlight = 1
        simp
        omega
      · intro _
        rfl
    | indexStartBusy h => exact ⟨ih1, ih2, fun _ => h⟩
    | taskComplete h =>
      have hb : spre.indexBusy = true := ih2.mpr (by omega)
      refine ⟨?_, ?_, ih3⟩
      · show spre.running - 1 + (spre.doneInFlight + 1) ≤ 1
        omega
      · show spre.indexBusy = true ↔
          spre.running - 1 + (spre.doneInFlight + 1) = 1
        rw [hb]
        simp
        omega
    | indexDonePending h1 h2 =>
      have hb := ih3 h2
      have hsum := ih2.mp hb
      refine ⟨?_, ?_, ?_⟩
      · show spre.running + 1 + (spre.doneInFlight - 1) ≤ 1
        omega
      · show spre.indexBusy = true ↔
          spre.running + 1 + (spre.doneInFlight - 1) = 1
        rw [hb]
        simp
        omega
      · intro hp
        exact Bool.noConfusion hp
    | indexDoneIdle h1 h2 =>
      have hsum : spre.running + spre.doneInFlight = 1 :=
        ih2.mp (ih2.mpr (by omega))
      refine ⟨?_, ?_, ?_⟩
      · show spre.running + (spre.doneInFlight - 1) ≤ 1
        omega
      · show false = true ↔ spre.running + (spre.doneInFlight - 1) = 1
        constructor
        · intro hf
          exact Bool.noConfusion hf
        · intro hx
          exfalso
          omega
      · intro hp
        have hp' : spre.indexPending = true := hp
        rw [h2] at hp'
        exact Bool.noConfusion hp'
    | fireSession a now t ha hev hd hmin => exact ⟨ih1, ih2, ih3⟩
    | fireAccount a now t ha hev hd hmin => exact ⟨ih1, ih2, ih3⟩
    | fireStore a now t idx ha hev hd hmin => exact ⟨ih1, ih2, ih3⟩
    | fireStoreGone a now idx ha hev hd hmin => exact ⟨ih1, ih2, ih3⟩
    | fireAcme a now id ha hev hd hmin => exact ⟨ih1, ih2, ih3⟩
    | fireReloadLicense a now t ha hev hd hmin => exact ⟨ih1, ih2, ih3⟩
    | fireReloadLicenseNoop a now ha hev hd hmin => exact ⟨ih1, ih2, ih3⟩

/-- Witness for `indexing_single_flight`: at the initial state for a concrete
parameter choice, exactly the startup indexer is in flight. -/
theorem indexing_single_flight_witness :
    (initState ⟨0, 1, 2, [], [], none⟩).running +
      (initState ⟨0, 1, 2, [], [], none⟩).doneInFlight ≤ 1 :=
  (indexing_single_flight ⟨0, 1, 2, [], [], none⟩ _ Reach.init).1


/-! ## Dispatch order in the timer branch

Each drained action produces a sequence of operations inside one iteration of
the `while let Some(event) = queue.pop()` loop: scheduling the next
occurrence into the queue and spawning a background work task. -/

/-- One operation of a timer-dispatch iteration. -/
inductive HKOp where
  | spawnWork : ActionClass → HKOp
  | reschedule : ActionClass → HKOp
deriving DecidableEq

/-- The operation sequence of one timer-dispatch iteration, per class, exactly
in source order:

* `Session`: `tokio::spawn` of the cache purge, then `queue.schedule`;
* `Account`: `tokio::spawn` of the account purge, then `queue.schedule`;
* `Store(idx)`: when schedule `idx` exists on the snapshot, `queue.schedule`
  first, then `tokio::spawn` of the purge; otherwise nothing;
* `Acme(id)`: `tokio::spawn` of the renewal only (rescheduling arrives later
  via an `AcmeReschedule` event);
* `ReloadLicense`: inline reload, `queue.schedule` only when the reload
  produced a new core with a license. -/
def timerTrace (c : ActionClass) (storeExists reloadReschedules : Bool) :
    List HKOp :=
  match c with
  | .Session => [.spawnWork .Session, .reschedule .Session]
  | .Account => [.spawnWork .Account, .reschedule .Account]
  | .Store idx =>
    if storeExists then
      [.reschedule (.Store idx), .spawnWork (.Store idx)]
    else []
  | .Acme id => [.spawnWork (.Acme id)]
  | .ReloadLicense =>
    if reloadReschedules then [.reschedule .ReloadLicense] else []

/-- The reschedule of class `c` comes strictly before the spawn of class `c`
in the trace `t`. -/
def reschedBeforeSpawn (t : List HKOp) (c : ActionClass) : Prop :=
  t.indexOf (.reschedule c) < t.indexOf (.spawnWork c)

/-- C7 counterexample: for a drained `Session` action the scheduler spawns
the background task BEFORE inserting the next occurrence, refuting "the
scheduler inserts the action's next occurrence into the queue before spawning
the background work task" at the concrete class `Session`. -/
theorem session_reschedules_after_spawn_cex :
    ¬ reschedBeforeSpawn (timerTrace .Session true true) .Session ∧
    HKOp.reschedule .Session ∈ timerTrace .Session true true ∧
    HKOp.spawnWork .Session ∈ timerTrace .Session true true := by
  refine ⟨?_, by decide, by decide⟩
  intro h
  simp [reschedBeforeSpawn, timerTrace, List.indexOf, List.findIdx,
    List.findIdx.go] at h

/-- C7 (amended): for a drained `Store(i)` action whose schedule still exists
the reschedule strictly precedes the spawn, while for `Session` and `Account`
the spawn comes first and the reschedule follows within the same dispatch
iteration (both operations occur in the iteration's trace). -/
theorem timer_dispatch_order (idx : Nat) (b r : Bool) :
    reschedBeforeSpawn (timerTrace (.Store idx) true r) (.Store idx) ∧
    timerTrace .Session b r =
      [.spawnWork .Session, .reschedule .Session] ∧
    timerTrace .Account b r =
      [.spawnWork .Account, .reschedule .Account] := by
  refine ⟨?_, rfl, rfl⟩
  have hne : (HKOp.reschedule (ActionClass.Store idx) ==
      HKOp.spawnWork (ActionClass.Store idx)) = false := by
    rw [beq_eq_false_iff_ne]
    simp
  simp [reschedBeforeSpawn, timerTrace, List.indexOf, List.findIdx,
    List.findIdx.go, hne]

end Housekeeper


namespace Boot

/-! ## The boot pipeline (BootManager::init) -/

/-- The stages of `BootManager::init`, in source order. -/
inductive BootStage where
  | resolveConfigPath : BootStage
  | parseLocalFile : BootStage
  | resolveMacros : BootStage
  | parseServers : BootStage
  | bindAndDropPriv : BootStage
  | openStores : BootStage
  | buildConfigManager : BootStage
  | extendConfig : BootStage
  | enableTracing : BootStage
  | seedSettings : BootStage
  | persistSeededKeys : BootStage
  | parseLookupStores : BootStage
  | buildSharedCore : BootStage
  | parseTcpAcceptors : BootStage
deriving DecidableEq

/-- The sequence of stages executed by `BootManager::init`, in order. -/
def bootSequence : List BootStage :=
  [.resolveConfigPath, .parseLocalFile, .resolveMacros, .parseServers,
   .bindAndDropPriv, .openStores, .buildConfigManager, .extendConfig,
   .enableTracing, .seedSettings, .persistSeededKeys, .parseLookupStores,
   .buildSharedCore, .parseTcpAcceptors]

/-- Stages that open a store: `Stores::parse` and `stores.parse_lookups`. -/
def opensStore (st : BootStage) : Bool :=
  st == .openStores || st == .parseLookupStores

/-- C8: in the boot pipeline, every stage that opens a store comes strictly
after the stage that binds the privileged listener ports and drops OS
privileges (`servers.bind_and_drop_priv`); no store is opened while the
process still holds privileges. -/
theorem store_open_after_privilege_drop (i : Fin bootSequence.length)
    (h : opensStore (bootSequence.get i) = true) :
    bootSequence.indexOf BootStage.bindAndDropPriv < i.val := by
  revert h
  revert i
  decide

/-- Witness for `store_open_after_privilege_drop`: position 5 of the pipeline
(`Stores::parse`) opens stores and lies after the privilege drop. -/
theorem store_open_after_privilege_drop_witness :
    bootSequence.indexOf BootStage.bindAndDropPriv < 5 :=
  store_open_after_privilege_drop ⟨5, by decide⟩ (by decide)

/-! ## Config and the non-fatal/fatal stage outcomes -/

/-- The configuration during boot: a key/value mapping plus the append-only
list of build errors (pattern, message). -/
structure Config where
  keys : List (String × String)
  buildErrors : List (String × String)
deriving DecidableEq

/-- `Config::value`: look up the value stored under a key. -/
def value (c : Config) (k : String) : Option String :=
  (c.keys.find? (fun p => p.1 == k)).map Prod.snd

/-- `Config::new_build_error`: append a (pattern, message) diagnostic. -/
def newBuildError (c : Config) (pat msg : String) : Config :=
  { c with buildErrors := c.buildErrors ++ [(pat, msg)] }

/-- Result of `std::fs::read_to_string` on the local configuration file. -/
inductive ReadResult where
  | ok : String → ReadResult
  | ioErr : String → ReadResult

/-- Result of `Config::parse` on the file contents. -/
inductive ParseResult where
  | ok : List (String × String) → ParseResult
  | parseErr : String → ParseResult

/-- Outcome of one boot stage: continue with a value, or abort the process
with a printed message (`UnwrapFailure::failed`). -/
inductive BootOutcome (α : Type) where
  | proceed : α → BootOutcome α
  | fatalExit : String → BootOutcome α
deriving DecidableEq

/-- The parse-local-file stage of `BootManager::init`: a successful read is
parsed with `.failed("Invalid configuration file")` (fatal on parse error),
while a read error becomes a build error on an empty config and boot
continues. -/
def parseLocalFileStage (read : ReadResult) (parse : String → ParseResult) :
    BootOutcome Config :=
  match read with
  | .ok text =>
    match parse text with
    | .ok keys => .proceed ⟨keys, []⟩
    | .parseErr _ => .fatalExit "Invalid configuration file"
  | .ioErr err =>
    .proceed (newBuildError ⟨[], []⟩ "*"
      ("Could not read configuration file: " ++ err))

/-- C2 counterexample: when the local file reads successfully but fails to
parse, boot aborts fatally instead of recording a build error and
continuing — at the concrete input of a file with contents `"x"` whose parse
fails. -/
theorem parse_error_is_fatal_cex :
    parseLocalFileStage (.ok "x") (fun _ => .parseErr "unexpected token") =
      .fatalExit "Invalid configuration file" := rfl

/-- C2 (amended): an I/O error reading the local configuration file becomes a
build error and boot continues with an empty config, but a successfully read
file whose contents fail to parse is FATAL (`failed("Invalid configuration
file")`); the parse-local-file stage is fatal on parse errors. -/
theorem parse_local_file_stage_spec (p : String → ParseResult) :
    (∀ msg, parseLocalFileStage (.ioErr msg) p =
      .proceed ⟨[], [("*", "Could not read configuration file: " ++ msg)]⟩) ∧
    (∀ t e, p t = .parseErr e →
      parseLocalFileStage (.ok t) p =
        .fatalExit "Invalid configuration file") ∧
    (∀ t ks, p t = .ok ks →
      parseLocalFileStage (.ok t) p = .proceed ⟨ks, []⟩) := by
  refine ⟨fun msg => rfl, ?_, ?_⟩
  · intro t e h
    simp [parseLocalFileStage, h]
  · intro t ks h
    simp [parseLocalFileStage, h]

/-- Witness for `parse_local_file_stage_spec`: a parse failure on contents
`"k = "` aborts boot. -/
theorem parse_local_file_stage_spec_witness :
    parseLocalFileStage (.ok "k = ") (fun _ => ParseResult.parseErr "eof") =
      .fatalExit "Invalid configuration file" :=
  (parse_local_file_stage_spec (fun _ => ParseResult.parseErr "eof")).2.1
    "k = " "eof" rfl

end Boot

namespace Boot

/-! ## Seeding stages of BootManager::init -/

/-- A setting is (re)generated when `config.value(key).filter(|v| !v.is_empty()).is_none()`:
the key is absent or holds the empty string. -/
def valueMissingOrEmpty (c : Config) (k : String) : Bool :=
  match value c k with
  | none => true
  | some v => v == ""

/-- Result of `ConfigManager::fetch_external_config`. -/
inductive FetchResult where
  | ok : String → List (String × String) → FetchResult
  | err : String → FetchResult

/-- The fixed default queue/session throttle and analysis-address settings
added inside the `version.spam-filter`-absent block of `BootManager::init`. -/
def spamFilterDefaults : List (String × String) :=
  [("queue.quota.size.messages", "100000"),
   ("queue.quota.size.size", "10737418240"),
   ("queue.quota.size.enable", "true"),
   ("queue.throttle.rcpt.key", "rcpt_domain"),
   ("queue.throttle.rcpt.concurrency", "5"),
   ("queue.throttle.rcpt.enable", "true"),
   ("session.throttle.ip.key", "remote_ip"),
   ("session.throttle.ip.concurrency", "5"),
   ("session.throttle.ip.enable", "true"),
   ("session.throttle.sender.key.0", "sender_domain"),
   ("session.throttle.sender.key.1", "rcpt"),
   ("session.throttle.sender.rate", "25/1h"),
   ("session.throttle.sender.enable", "true"),
   ("report.analysis.addresses", "postmaster@*")]

/-- The spam-filter seeding stage: when `version.spam-filter` is absent (or
empty), fetch the remote rule pack; on success stage its keys for insertion,
on failure record a build error — and in BOTH cases stage the fixed default
settings (the `for key in [...]` loop sits after the `match`, inside the same
`if`).  Returns the updated config and this stage's contribution to
`insert_keys`. -/
def spamFilterStage (c : Config) (fetch : FetchResult) :
    Config × List (String × String) :=
  if valueMissingOrEmpty c "version.spam-filter" then
    match fetch with
    | .ok _ ks => (c, ks ++ spamFilterDefaults)
    | .err msg =>
      (newBuildError c "*" ("Failed to fetch spam filter: " ++ msg),
        spamFilterDefaults)
  else (c, [])

/-- C1 counterexample: booting with `version.spam-filter` absent and the
remote fetch failing DOES insert the fixed default set (shown for
`queue.quota.size.messages`), refuting "the fixed default set ... is not
inserted into the configuration" at the concrete input of an empty config and
a failed fetch. -/
theorem spam_defaults_inserted_on_fetch_failure_cex :
    ("queue.quota.size.messages", "100000") ∈
      (spamFilterStage ⟨[], []⟩ (.err "connection refused")).2 ∧
    ("*", "Failed to fetch spam filter: connection refused") ∈
      (spamFilterStage ⟨[], []⟩ (.err "connection refused")).1.buildErrors := by
  constructor
  · simp [spamFilterStage, valueMissingOrEmpty, value, spamFilterDefaults]
  · simp [spamFilterStage, valueMissingOrEmpty, value, newBuildError]

/-- C1 (amended): with `version.spam-filter` absent and the remote fetch
failing, the Config carries a build error whose message names the fetch
failure, and the fixed default set of queue/session throttle and
analysis-address keys IS nevertheless staged for insertion (the defaults are
added whenever `version.spam-filter` is absent, regardless of fetch outcome);
the config's key map itself is unchanged by this stage. -/
theorem spam_fetch_failure_spec (c : Config) (msg : String)
    (h : valueMissingOrEmpty c "version.spam-filter" = true) :
    (spamFilterStage c (.err msg)).1.buildErrors =
      c.buildErrors ++ [("*", "Failed to fetch spam filter: " ++ msg)] ∧
    (spamFilterStage c (.err msg)).2 = spamFilterDefaults ∧
    (spamFilterStage c (.err msg)).1.keys = c.keys := by
  simp [spamFilterStage, h, newBuildError]

/-- Witness for `spam_fetch_failure_spec`: an empty config with a timed-out
fetch stages exactly the default set. -/
theorem spam_fetch_failure_spec_witness :
    (spamFilterStage ⟨[], []⟩ (.err "timeout")).2 = spamFilterDefaults :=
  (spam_fetch_failure_spec ⟨[], []⟩ "timeout" rfl).2.1

/-- The hostname seeding stage: insert `lookup.default.hostname` from the OS
hostname (falling back to `"localhost"`) when the key is absent or empty. -/
def seedHostname (c : Config) (osHostname : Option String) :
    List (String × String) :=
  if valueMissingOrEmpty c "lookup.default.hostname" then
    [("lookup.default.hostname", osHostname.getD "localhost")]
  else []

/-- The OAuth key seeding stage: insert 64 random alphanumerics under
`oauth.key` when the key is absent or empty. -/
def seedOAuthKey (c : Config) (randKey : String) : List (String × String) :=
  if valueMissingOrEmpty c "oauth.key" then [("oauth.key", randKey)] else []

/-- C9 counterexample: a config that already CONTAINS `oauth.key` (with an
empty value) still has the key regenerated, refuting "each seeded setting is
generated and inserted only when its key is absent from the configuration" at
the concrete input `keys = [(oauth.key, "")]`. -/
theorem seeding_regenerates_present_empty_key_cex :
    value ⟨[("oauth.key", "")], []⟩ "oauth.key" = some "" ∧
    seedOAuthKey ⟨[("oauth.key", "")], []⟩ "K" = [("oauth.key", "K")] := by
  constructor
  · rfl
  · rfl

/-- C9 (amended): each seeded setting is generated and inserted only when its
guard key is absent or empty; hence a second boot over a config already
holding non-empty values for `lookup.default.hostname`, `oauth.key` and
`version.spam-filter` regenerates and overwrites none of them. -/
theorem seeding_idempotent_spec (c : Config) (host : Option String)
    (rand : String) (fetch : FetchResult) :
    (∀ v, value c "lookup.default.hostname" = some v → v ≠ "" →
      seedHostname c host = []) ∧
    (∀ v, value c "oauth.key" = some v → v ≠ "" →
      seedOAuthKey c rand = []) ∧
    (∀ v, value c "version.spam-filter" = some v → v ≠ "" →
      spamFilterStage c fetch = (c, [])) ∧
    (seedHostname c host ≠ [] →
      valueMissingOrEmpty c "lookup.default.hostname" = true) ∧
    (seedOAuthKey c rand ≠ [] →
      valueMissingOrEmpty c "oauth.key" = true) ∧
    ((spamFilterStage c fetch).2 ≠ [] →
      valueMissingOrEmpty c "version.spam-filter" = true) := by
  refine ⟨?_, ?_, ?_, ?_, ?_, ?_⟩
  · intro v hv hne
    simp [seedHostname, valueMissingOrEmpty, hv, hne]
  · intro v hv hne
    simp [seedOAuthKey, valueMissingOrEmpty, hv, hne]
  · intro v hv hne
    simp [spamFilterStage, valueMissingOrEmpty, hv, hne]
  · intro hne
    cases hg : valueMissingOrEmpty c "lookup.default.hostname" with
    | false =>
      exfalso
      exact hne (by simp [seedHostname, hg])
    | true => rfl
  · intro hne
    cases hg : valueMissingOrEmpty c "oauth.key" with
    | false =>
      exfalso
      exact hne (by simp [seedOAuthKey, hg])
    | true => rfl
  · intro hne
    cases hg : valueMissingOrEmpty c "version.spam-filter" with
    | false =>
      exfalso
      exact hne (by simp [spamFilterStage, hg])
    | true => rfl

/-- Witness for `seeding_idempotent_spec`: a config holding non-empty values
for all three guard keys gets no insertions from any seeding stage. -/
theorem seeding_idempotent_spec_witness :
    seedHostname
        ⟨[("lookup.default.hostname", "mail.example.org"),
          ("oauth.key", "abc"), ("version.spam-filter", "1.0")], []⟩
        (some "h") = [] ∧
    seedOAuthKey
        ⟨[("lookup.default.hostname", "mail.example.org"),
          ("oauth.key", "abc"), ("version.spam-filter", "1.0")], []⟩
        "NEW" = [] ∧
    spamFilterStage
        ⟨[("lookup.default.hostname", "mail.example.org"),
          ("oauth.key", "abc"), ("version.spam-filter", "1.0")], []⟩
        (.err "down") =
      (⟨[("lookup.default.hostname", "mail.example.org"),
         ("oauth.key", "abc"), ("version.spam-filter", "1.0")], []⟩, []) :=
  ⟨(seeding_idempotent_spec _ (some "h") "NEW" (.err "down")).1
      "mail.example.org" rfl (by decide),
   (seeding_idempotent_spec _ (some "h") "NEW" (.err "down")).2.1
      "abc" rfl (by decide),
   (seeding_idempotent_spec _ (some "h") "NEW" (.err "down")).2.2.1
      "1.0" rfl (by decide)⟩

end Boot

namespace Quickstart

/-! ## The quickstart scaffolder (`--init <dir>`)

`quickstart` creates the base directory and the `etc`/`data`/`logs`
sub-directories when absent, then unconditionally writes `etc/config.toml`
with the canned template, substituting the directory path for `_P_` and the
SHA-512-crypt hash of the admin password for `_S_`.  The filesystem is
modelled as a set of directories plus a file map; the hash (computed by the
external `pwhash` crate from the env-supplied or random password) is a
parameter. -/

/-- A model filesystem: existing directories and files with their contents. -/
structure FileSys where
  dirs : List String
  files : List (String × String)

/-- `std::fs::write`: create or overwrite the file at `p` with contents `v`. -/
def setFile (files : List (String × String)) (p v : String) :
    List (String × String) :=
  files.filter (fun q => q.1 ≠ p) ++ [(p, v)]

/-- Read the contents of the file at `p`, when it exists. -/
def getFile (fs : FileSys) (p : String) : Option String :=
  (fs.files.find? (fun q => q.1 == p)).map Prod.snd

/-- `if !path.exists() { create_dir(...) }`: existing directories are kept. -/
def addDirIfMissing (ds : List String) (d : String) : List String :=
  if d ∈ ds then ds else ds ++ [d]

/-- The canned `QUICKSTART_CONFIG` template (default, non-FoundationDB
variant), line by line. -/
def quickstartConfigLines : List String :=
  ["[server.listener.smtp]",
   "bind = \"[::]:25\"",
   "protocol = \"smtp\"",
   "",
   "[server.listener.submission]",
   "bind = \"[::]:587\"",
   "protocol = \"smtp\"",
   "",
   "[server.listener.submissions]",
   "bind = \"[::]:465\"",
   "protocol = \"smtp\"",
   "tls.implicit = true",
   "",
   "[server.listener.imap]",
   "bind = \"[::]:143\"",
   "protocol = \"imap\"",
   "",
   "[server.listener.imaptls]",
   "bind = \"[::]:993\"",
   "protocol = \"imap\"",
   "tls.implicit = true",
   "",
   "[server.listener.sieve]",
   "bind = \"[::]:4190\"",
   "protocol = \"managesieve\"",
   "",
   "[server.listener.https]",
   "protocol = \"http\"",
   "bind = \"[::]:443\"",
   "tls.implicit = true",
   "",
   "[server.listener.http]",
   "protocol = \"http\"",
   "bind = \"[::]:8080\"",
   "",
   "[storage]",
   "data = \"rocksdb\"",
   "fts = \"rocksdb\"",
   "blob = \"rocksdb\"",
   "lookup = \"rocksdb\"",
   "directory = \"internal\"",
   "",
   "[store.rocksdb]",
   "type = \"rocksdb\"",
   "path = \"_P_/data\"",
   "compression = \"lz4\"",
   "",
   "[directory.internal]",
   "type = \"internal\"",
   "store = \"rocksdb\"",
   "",
   "[tracer.log]",
   "type = \"log\"",
   "level = \"info\"",
   "path = \"_P_/logs\"",
   "prefix = \"stalwart.log\"",
   "rotate = \"daily\"",
   "ansi = false",
   "enable = true",
   "",
   "[authentication.fallback-admin]",
   "user = \"admin\"",
   "secret = \"_S_\""]

/-- The canned template as one string (trailing newline as in the source). -/
def QUICKSTART_CONFIG : String :=
  String.intercalate "\n" quickstartConfigLines ++ "\n"

/-- `QUICKSTART_CONFIG.replace("_P_", path).replace("_S_", hash)`. -/
def renderQuickstartConfig (path hash : String) : String :=
  (QUICKSTART_CONFIG.replace "_P_" path).replace "_S_" hash

/-- The `quickstart` function: create missing directories, then
unconditionally write `<path>/etc/config.toml` with the rendered template
(`hash` is the freshly computed SHA-512-crypt admin-secret hash). -/
def quickstart (fs : FileSys) (path hash : String) : FileSys :=
  let ds := addDirIfMissing fs.dirs path
  let ds := addDirIfMissing ds (path ++ "/etc")
  let ds := addDirIfMissing ds (path ++ "/data")
  let ds := addDirIfMissing ds (path ++ "/logs")
  { dirs := ds,
    files := setFile fs.files (path ++ "/etc/config.toml")
      (renderQuickstartConfig path hash) }

theorem find?_setFile_self (files : List (String × String)) (p v : String) :
    (setFile files p v).find? (fun q => q.1 == p) = some (p, v) := by
  unfold setFile
  rw [List.find?_append]
  have h1 : (files.filter (fun q => q.1 ≠ p)).find? (fun q => q.1 == p) =
      none := by
    rw [List.find?_eq_none]
    intro x hx
    rw [List.mem_filter] at hx
    simpa using hx.2
  rw [h1]
  simp

theorem find?_setFile_other (files : List (String × String)) (p v q : String)
    (hne : q ≠ p) :
    (setFile files p v).find? (fun r => r.1 == q) =
      files.find? (fun r => r.1 == q) := by
  unfold setFile
  rw [List.find?_append]
  have h2 : ([(p, v)].find? (fun r => r.1 == q)) = none := by
    simp [Ne.symm hne]
  rw [h2]
  induction files with
  | nil => rfl
  | cons a rest ih =>
    cases hp : (a.1 == p) <;> cases hd : (a.1 == q) <;>
      simp_all [List.filter_cons]

theorem mem_addDirIfMissing (ds : List String) (d x : String) (hx : x ∈ ds) :
    x ∈ addDirIfMissing ds d := by
  unfold addDirIfMissing
  split
  · exact hx
  · exact List.mem_append_left _ hx

/-- C10: running quickstart against a directory that already contains
`etc/config.toml` unconditionally overwrites that file with the rendered
canned configuration embedding the fresh admin-secret hash — the result at
that path is `renderQuickstartConfig path hash` for EVERY starting
filesystem, so the old contents are neither read nor preserved — while every
existing directory is left in place and every other file is untouched. -/
theorem quickstart_overwrites_config (fs : FileSys) (path hash : String) :
    getFile (quickstart fs path hash) (path ++ "/etc/config.toml") =
      some (renderQuickstartConfig path hash) ∧
    (∀ d, d ∈ fs.dirs → d ∈ (quickstart fs path hash).dirs) ∧
    (∀ q, q ≠ path ++ "/etc/config.toml" →
      getFile (quickstart fs path hash) q = getFile fs q) := by
  refine ⟨?_, ?_, ?_⟩
  · unfold getFile quickstart
    rw [find?_setFile_self]
    rfl
  · intro d hd
    unfold quickstart
    exact mem_addDirIfMissing _ _ _ (mem_addDirIfMissing _ _ _
      (mem_addDirIfMissing _ _ _ (mem_addDirIfMissing _ _ _ hd)))
  · intro q hq
    unfold getFile quickstart
    rw [find?_setFile_other _ _ _ _ hq]

/-- Witness for `quickstart_overwrites_config`: a filesystem that already
holds `/srv/mail/etc/config.toml` with contents `"OLD"` and the directory
`/srv/mail/etc` gets the file overwritten with the rendered template, keeps
the directory, and keeps an unrelated file. -/
theorem quickstart_overwrites_config_witness :
    getFile
        (quickstart
          ⟨["/srv/mail", "/srv/mail/etc"],
           [("/srv/mail/etc/config.toml", "OLD"),
            ("/srv/mail/etc/keep.txt", "KEEP")]⟩
          "/srv/mail" "HASH")
        ("/srv/mail" ++ "/etc/config.toml") =
      some (renderQuickstartConfig "/srv/mail" "HASH") ∧
    "/srv/mail/etc" ∈
      (quickstart
        ⟨["/srv/mail", "/srv/mail/etc"],
         [("/srv/mail/etc/config.toml", "OLD"),
          ("/srv/mail/etc/keep.txt", "KEEP")]⟩
        "/srv/mail" "HASH").dirs ∧
    getFile
        (quickstart
          ⟨["/srv/mail", "/srv/mail/etc"],
           [("/srv/mail/etc/config.toml", "OLD"),
            ("/srv/mail/etc/keep.txt", "KEEP")]⟩
          "/srv/mail" "HASH")
        "/srv/mail/etc/keep.txt" = some "KEEP" :=
  ⟨(quickstart_overwrites_config _ "/srv/mail" "HASH").1,
   (quickstart_overwrites_config _ "/srv/mail" "HASH").2.1
      "/srv/mail/etc" (by decide),
   ((quickstart_overwrites_config _ "/srv/mail" "HASH").2.2
      "/srv/mail/etc/keep.txt" (by decide)).trans (by decide)⟩

end Quickstart
